import Mathlib

/-!
Verification of the time-series core of the Bitcoin-Price-Forecasting
repository (preprocessing, Granger causality, ARIMA forecasting, VAR
forecasting) against its natural-language specification.

Modelling conventions
---------------------
* A pandas DataFrame is a `DF`: a list of column names, a date index
  (dates as integers, one unit = one calendar day), and a list of rows of
  rational cell values.  Rationals stand for the float values of the
  source; the transcendental float functions `np.log`, `np.exp`,
  `np.sqrt` and the normal quantile are abstract parameters
  `logq expq sqrtq zscore : ℚ → ℚ`, with their standard order properties
  (monotonicity, non-negativity) taken as hypotheses where a property
  needs them.
* `NaN` cells produced by `shift` are modelled as `none` in
  `Option ℚ`-valued intermediate tables; `dropna` removes the rows that
  contain a `none`.
* External statsmodels objects (the fitted ARIMA and VAR results, the
  `adfuller` and `grangercausalitytests` procedures) are parameters or
  structures whose interface is modelled from the spec; each such
  definition carries a doc comment saying so.
-/

/-- A pandas DataFrame: named columns, an integer date index, rows of
rational cells.  Rows are stored row-major; row `t`, position `c` is the
value of column `cols[c]` at date `idx[t]`. -/
structure DF where
  cols : List String
  idx : List Int
  rows : List (List ℚ)
deriving Repr, DecidableEq

/-- `df.shift(1)`: every row moves down one slot; the vacated first row is
all-NaN (`none`).  The shifted-in row takes the width of the first data
row. -/
def shift1 (rows : List (List ℚ)) : List (List (Option ℚ)) :=
  match rows with
  | [] => []
  | r :: rs => (r.map fun _ => (none : Option ℚ)) :: ((r :: rs).dropLast.map fun p => p.map some)

/-- Elementwise `cur / prev` where `prev` may hold NaN; NaN propagates. -/
def npDivO (cur : List ℚ) (prev : List (Option ℚ)) : List (Option ℚ) :=
  List.zipWith (fun c p => p.map (fun q => c / q)) cur prev

/-- Elementwise `np.log` over a row that may hold NaN; NaN propagates.
`logq` is the abstract float logarithm. -/
def npLogO (logq : ℚ → ℚ) (r : List (Option ℚ)) : List (Option ℚ) :=
  r.map (Option.map logq)

/-- `DataFrame.dropna()`: keep only the rows with no NaN cell, stripping
the option; the index keeps the labels of the surviving rows. -/
def dropnaRows (rows : List (List (Option ℚ))) : List (List ℚ) :=
  (rows.filter (fun r => r.all Option.isSome)).map (fun r => r.filterMap id)

/-- `DataFrame.dropna()` on the index: the date labels of the rows that
survive. -/
def dropnaIdx (idx : List Int) (rows : List (List (Option ℚ))) : List Int :=
  ((idx.zip rows).filter (fun p => p.2.all Option.isSome)).map Prod.fst

/-- `log_returns` from `src/preprocessing.py`:
`np.log(df / df.shift(1)).dropna()` — convert price levels to log
returns `r_t = ln(P_t / P_{t-1})`; the first row is NaN and is dropped. -/
def log_returns (logq : ℚ → ℚ) (df : DF) : DF :=
  let shifted := shift1 df.rows
  let ratio := List.zipWith npDivO df.rows shifted
  let lr := ratio.map (npLogO logq)
  { cols := df.cols, idx := dropnaIdx df.idx lr, rows := dropnaRows lr }

/-- Reference form used in proofs: row `t` of the log-return table pairs
row `t` (previous) with row `t+1` (current) of the price table. -/
def logRetRow (logq : ℚ → ℚ) (prev cur : List ℚ) : List ℚ :=
  List.zipWith (fun c p => logq (c / p)) cur prev

theorem npDivO_map_some (cur prev : List ℚ) :
    npDivO cur (prev.map some) = List.zipWith (fun c p => some (c / p)) cur prev := by
  simp [npDivO, List.zipWith_map_right]

theorem npLogO_zipWith_some (logq : ℚ → ℚ) (cur prev : List ℚ) :
    npLogO logq (List.zipWith (fun c p => some (c / p)) cur prev)
      = (logRetRow logq prev cur).map some := by
  simp [npLogO, logRetRow, List.map_zipWith]

theorem npLog_npDiv_some (logq : ℚ → ℚ) (cur prev : List ℚ) :
    npLogO logq (npDivO cur (prev.map some)) = (logRetRow logq prev cur).map some := by
  rw [npDivO_map_some, npLogO_zipWith_some]

theorem npDiv_none_row (cur : List ℚ) :
    npDivO cur (cur.map fun _ => (none : Option ℚ)) = cur.map fun _ => (none : Option ℚ) := by
  induction cur with
  | nil => rfl
  | cons x xs ih => simpa [npDivO] using ih

theorem npLog_none_row (logq : ℚ → ℚ) (r : List ℚ) :
    npLogO logq (r.map fun _ => (none : Option ℚ)) = r.map fun _ => (none : Option ℚ) := by
  simp [npLogO]

theorem all_isSome_map_some (r : List ℚ) :
    (r.map some).all Option.isSome = true := by
  simp

theorem filterMap_id_map_some (r : List ℚ) :
    (r.map some).filterMap id = r := by
  simp

/-- The raw (pre-`dropna`) log-return table: an all-NaN first row followed
by the rows of `logRetRow` applied to consecutive price rows. -/
theorem log_returns_raw (logq : ℚ → ℚ) (r0 : List ℚ) (rs : List (List ℚ)) :
    (List.zipWith npDivO (r0 :: rs) (shift1 (r0 :: rs))).map (npLogO logq)
      = (r0.map fun _ => (none : Option ℚ)) ::
          (List.zipWith (fun cur prev => (logRetRow logq prev cur).map some)
            rs ((r0 :: rs).dropLast)) := by
  have hfun : (fun (cur : List ℚ) (prev : List ℚ) => npLogO logq (npDivO cur (prev.map some)))
      = fun cur prev => (logRetRow logq prev cur).map some := by
    funext cur prev
    exact npLog_npDiv_some logq cur prev
  simp only [shift1, List.zipWith_cons_cons, List.map_cons, List.map_zipWith,
    List.zipWith_map_right, hfun, npDiv_none_row, npLog_none_row]

theorem dropnaRows_all_some (f : List ℚ → List ℚ → List ℚ) (rs ds : List (List ℚ)) :
    dropnaRows (List.zipWith (fun cur prev => (f prev cur).map some) rs ds)
      = List.zipWith (fun cur prev => f prev cur) rs ds := by
  induction rs generalizing ds with
  | nil => rfl
  | cons r rs ih =>
    cases ds with
    | nil => rfl
    | cons d ds =>
      have h := ih ds
      simp only [dropnaRows] at h
      simp [dropnaRows, List.filter_cons, filterMap_id_map_some, h]

theorem none_row_not_all_some (r0 : List ℚ) (h : r0 ≠ []) :
    (r0.map fun _ => (none : Option ℚ)).all Option.isSome = false := by
  cases r0 with
  | nil => exact absurd rfl h
  | cons x xs => simp

/-- Row-level characterization: for a non-degenerate price table (at least
one column, every row nonempty), the rows of `log_returns` are exactly the
consecutive-pair log ratios, with the all-NaN first row dropped. -/
theorem log_returns_rows_eq (logq : ℚ → ℚ) (df : DF) (r0 : List ℚ) (rs : List (List ℚ))
    (hrows : df.rows = r0 :: rs) (hne : r0 ≠ []) :
    (log_returns logq df).rows
      = List.zipWith (fun cur prev => logRetRow logq prev cur) rs ((r0 :: rs).dropLast) := by
  show dropnaRows ((List.zipWith npDivO df.rows (shift1 df.rows)).map (npLogO logq)) = _
  rw [hrows, log_returns_raw]
  have h1 : dropnaRows ((r0.map fun _ => (none : Option ℚ)) ::
      (List.zipWith (fun cur prev => (logRetRow logq prev cur).map some)
        rs ((r0 :: rs).dropLast)))
      = dropnaRows (List.zipWith (fun cur prev => (logRetRow logq prev cur).map some)
        rs ((r0 :: rs).dropLast)) := by
    simp [dropnaRows, List.filter_cons, none_row_not_all_some r0 hne]
    rw [if_neg hne]
  rw [h1, dropnaRows_all_some]

theorem logRetRow_getD (logq : ℚ → ℚ) (prev cur : List ℚ) (c : Nat)
    (hc : c < cur.length) (hc' : c < prev.length) :
    (logRetRow logq prev cur).getD c 0 = logq (cur.getD c 0 / prev.getD c 0) := by
  have hlen : c < (logRetRow logq prev cur).length := by
    simp [logRetRow, List.length_zipWith]
    omega
  rw [List.getD_eq_getElem _ _ hlen, List.getD_eq_getElem _ _ hc, List.getD_eq_getElem _ _ hc']
  simp [logRetRow, List.getElem_zipWith]

/-- C1: for every price table with at least 2 rows, at least one named
column (well-formed rows), and strictly positive values, `log_returns`
keeps the column set, has exactly one row fewer than the input, and every
cell of row `t` and column `c` equals `logq (P[t+1][c] / P[t][c])` — the
log of the ratio of consecutive prices (exact in the rational model, i.e.
within floating-point tolerance in the source). -/
theorem log_returns_spec (logq : ℚ → ℚ) (df : DF)
    (hrect : ∀ r ∈ df.rows, r.length = df.cols.length)
    (hcols : df.cols ≠ [])
    (hlen : 2 ≤ df.rows.length)
    (_hpos : ∀ r ∈ df.rows, ∀ x ∈ r, 0 < x) :
    (log_returns logq df).cols = df.cols ∧
    (log_returns logq df).rows.length = df.rows.length - 1 ∧
    ∀ t c : Nat, t + 1 < df.rows.length → c < df.cols.length →
      ((log_returns logq df).rows.getD t []).getD c 0
        = logq ((df.rows.getD (t + 1) []).getD c 0 / (df.rows.getD t []).getD c 0) := by
  obtain ⟨r0, rs, hrows⟩ : ∃ r0 rs, df.rows = r0 :: rs := by
    cases h : df.rows with
    | nil => rw [h] at hlen; simp at hlen
    | cons a l => exact ⟨a, l, rfl⟩
  have hr0 : r0 ∈ df.rows := by rw [hrows]; exact List.mem_cons_self _ _
  have hne : r0 ≠ [] := by
    intro h
    have := hrect r0 hr0
    rw [h] at this
    exact hcols (List.eq_nil_of_length_eq_zero this.symm)
  have hrowseq := log_returns_rows_eq logq df r0 rs hrows hne
  have hlength : (log_returns logq df).rows.length = df.rows.length - 1 := by
    rw [hrowseq, hrows]
    simp [List.length_zipWith]
  refine ⟨rfl, hlength, ?_⟩
  intro t c ht hc
  have htrs : t < rs.length := by
    rw [hrows] at ht
    simpa using Nat.lt_of_succ_lt_succ ht
  have hb0 : t < (r0 :: rs).length := by
    simp only [List.length_cons]
    omega
  have hb1 : t + 1 < (r0 :: rs).length := by
    simp only [List.length_cons]
    omega
  have hbd : t < ((r0 :: rs).dropLast).length := by
    simp only [List.length_dropLast, List.length_cons]
    omega
  have htz : t < (List.zipWith (fun cur prev => logRetRow logq prev cur)
      rs ((r0 :: rs).dropLast)).length := by
    simp only [List.length_zipWith, List.length_dropLast, List.length_cons]
    omega
  have hmem_cur : (r0 :: rs)[t + 1] ∈ df.rows := by
    rw [hrows]
    exact List.getElem_mem hb1
  have hmem_prev : (r0 :: rs)[t] ∈ df.rows := by
    rw [hrows]
    exact List.getElem_mem hb0
  have hclen_cur : c < ((r0 :: rs)[t + 1]).length := by
    rw [hrect _ hmem_cur]
    exact hc
  have hclen_prev : c < ((r0 :: rs)[t]).length := by
    rw [hrect _ hmem_prev]
    exact hc
  have hdl : ((r0 :: rs).dropLast)[t] = (r0 :: rs)[t] :=
    List.getElem_dropLast _ _ _
  have hcur : rs[t] = (r0 :: rs)[t + 1] :=
    (List.getElem_cons_succ r0 rs t hb1).symm
  have hstep : (log_returns logq df).rows.getD t []
      = logRetRow logq ((r0 :: rs)[t]) ((r0 :: rs)[t + 1]) := by
    rw [hrowseq, List.getD_eq_getElem _ _ htz, List.getElem_zipWith, hdl, hcur]
  rw [hstep, logRetRow_getD logq _ _ c hclen_cur hclen_prev, hrows,
    List.getD_eq_getElem _ _ hb1, List.getD_eq_getElem _ _ hb0]

/-- A concrete two-row, one-column price table used by witnesses. -/
def sampleTwoRow : DF :=
  { cols := ["Bitcoin"], idx := [0, 1], rows := [[100], [102]] }

theorem log_returns_spec_witness :
    (log_returns id sampleTwoRow).cols = ["Bitcoin"] ∧
    (log_returns id sampleTwoRow).rows.length = 1 ∧
    ((log_returns id sampleTwoRow).rows.getD 0 []).getD 0 0 = id ((102 : ℚ) / 100) := by
  have h := log_returns_spec id sampleTwoRow
    (by decide) (by decide) (by decide) (by decide)
  exact ⟨h.1, h.2.1, h.2.2 0 0 (by decide) (by decide)⟩

/-- C2 counterexample: on a one-row price table (fewer than 2 rows),
`log_returns` returns a result — an empty return table — instead of
failing: the source performs no input validation and raises no
`InvalidInputError`. -/
theorem log_returns_no_error_cex :
    log_returns id { cols := ["Bitcoin"], idx := [0], rows := [[100]] }
      = { cols := ["Bitcoin"], idx := [], rows := [] } := by
  decide

/-- C2 (amended): for every price table with at least one named column and
fewer than 2 rows, `log_returns` does not fail: it returns an (empty)
result table with the same columns.  Likewise no check for non-positive
prices exists anywhere in the function — it is total. -/
theorem log_returns_short_input (logq : ℚ → ℚ) (df : DF)
    (hrect : ∀ r ∈ df.rows, r.length = df.cols.length)
    (hcols : df.cols ≠ [])
    (hlen : df.rows.length < 2) :
    (log_returns logq df).cols = df.cols ∧ (log_returns logq df).rows = [] := by
  refine ⟨rfl, ?_⟩
  cases hrows : df.rows with
  | nil =>
    show dropnaRows ((List.zipWith npDivO df.rows (shift1 df.rows)).map (npLogO logq)) = []
    rw [hrows]
    rfl
  | cons r0 rs =>
    cases rs with
    | nil =>
      have hne : r0 ≠ [] := by
        intro h
        have h2 := hrect r0 (by rw [hrows]; exact List.mem_cons_self _ _)
        rw [h] at h2
        exact hcols (List.eq_nil_of_length_eq_zero h2.symm)
      rw [log_returns_rows_eq logq df r0 [] hrows hne]
      rfl
    | cons r1 rs' =>
      rw [hrows] at hlen
      simp only [List.length_cons] at hlen
      omega

theorem log_returns_short_input_witness :
    (log_returns id { cols := ["Bitcoin"], idx := [0], rows := [[100]] }).rows = [] :=
  (log_returns_short_input id { cols := ["Bitcoin"], idx := [0], rows := [[100]] }
    (by decide) (by decide) (by decide)).2

/-- Error conditions of the external statistics library, as named by the
spec's error taxonomy.  `nonComputableSeries` is the condition the
library raises for a degenerate (constant, zero-variance) series. -/
inductive AdfError where
  | nonComputableSeries : AdfError
deriving Repr, DecidableEq

/-- Raw output of the external augmented Dickey-Fuller test: test
statistic, p-value and the 1%/5%/10% critical values.  (Positions 0, 1
and 4 of the statsmodels result tuple.) -/
structure AdfRaw where
  stat : ℚ
  pvalue : ℚ
  crit1 : ℚ
  crit5 : ℚ
  crit10 : ℚ
deriving Repr, DecidableEq

/-- One row of the summary dict built by `adf_test`. -/
structure AdfRow where
  series : String
  adf_statistic : ℚ
  pvalue : ℚ
  crit1 : ℚ
  crit5 : ℚ
  crit10 : ℚ
  result : String
deriving Repr, DecidableEq

/-- A series is constant when all its values equal the first one (zero
variance). -/
def isConstantSeries (l : List ℚ) : Bool :=
  match l with
  | [] => true
  | x :: xs => xs.all (· == x)

/-- `pd.Series.dropna()`: drop the missing values of a series. -/
def seriesDropna (s : List (Option ℚ)) : List ℚ :=
  s.filterMap id

/-- Round to the nearest integer, ties to even — the rounding CPython's
`round` uses. -/
def round_half_even (y : ℚ) : ℤ :=
  if y - ⌊y⌋ < 1 / 2 then ⌊y⌋
  else if 1 / 2 < y - ⌊y⌋ then ⌊y⌋ + 1
  else if 2 ∣ ⌊y⌋ then ⌊y⌋ else ⌊y⌋ + 1

/-- Python `round(x, 4)`: round to 4 decimal places, ties to even
(the float-representation error of the CPython implementation is not
modelled — rationals are exact). -/
def pyround4 (x : ℚ) : ℚ :=
  (round_half_even (x * 10000) : ℚ) / 10000

theorem round_half_even_ge_floor (y : ℚ) : ⌊y⌋ ≤ round_half_even y := by
  unfold round_half_even
  split_ifs <;> omega

theorem round_half_even_le_ceil (y : ℚ) : round_half_even y ≤ ⌈y⌉ := by
  unfold round_half_even
  have hceil : ∀ h : (1 : ℚ) / 2 ≤ y - ⌊y⌋, ⌊y⌋ + 1 ≤ ⌈y⌉ := by
    intro h
    rw [Int.add_one_le_ceil_iff]
    have : (0 : ℚ) < y - ⌊y⌋ := lt_of_lt_of_le (by norm_num) h
    linarith
  split_ifs with h1 h2 h3
  · exact Int.floor_le_ceil y
  · exact hceil (le_of_lt h2)
  · exact Int.floor_le_ceil y
  · exact hceil (le_of_not_lt h1)

theorem pyround4_nonneg (x : ℚ) (h : 0 ≤ x) : 0 ≤ pyround4 x := by
  unfold pyround4
  apply div_nonneg _ (by norm_num)
  have h1 : (0 : ℤ) ≤ ⌊x * 10000⌋ := Int.floor_nonneg.mpr (by positivity)
  exact_mod_cast le_trans h1 (round_half_even_ge_floor (x * 10000))

theorem pyround4_le_one (x : ℚ) (h : x ≤ 1) : pyround4 x ≤ 1 := by
  unfold pyround4
  rw [div_le_one (by norm_num)]
  have h3 : ⌈x * 10000⌉ ≤ 10000 := Int.ceil_le.mpr (by push_cast; linarith)
  exact_mod_cast le_trans (round_half_even_le_ceil (x * 10000)) h3

/-- `adf_test` from `src/preprocessing.py`: run the external `adfuller`
on the NaN-stripped series, turn p-value < 0.05 into the verdict string,
and assemble the rounded summary row.  `adfuller` is the external
statsmodels procedure, passed as a parameter; the source does not catch
any exception it raises (no `try` block), so a library error
propagates. -/
def adf_test (adfuller : List ℚ → Except AdfError AdfRaw)
    (series : List (Option ℚ)) (label : String) : Except AdfError AdfRow :=
  match adfuller (seriesDropna series) with
  | .error e => .error e
  | .ok r =>
    let verdict := if r.pvalue < 5 / 100 then "Stationary" else "Non-Stationary"
    .ok { series := label
          adf_statistic := pyround4 r.stat
          pvalue := pyround4 r.pvalue
          crit1 := pyround4 r.crit1
          crit5 := pyround4 r.crit5
          crit10 := pyround4 r.crit10
          result := verdict }

/-- C3: for every constant (zero-variance) series, `adf_test` surfaces the
library's distinct non-computable-series condition and never returns a
verdict row (in particular neither a "Stationary" nor a "Non-Stationary"
verdict).  The hypothesis `hadf` is the behaviour of the external
statsmodels `adfuller`, modelled from the spec: on a constant series the
underlying test is ill-defined and the library raises. -/
theorem adf_test_constant (adfuller : List ℚ → Except AdfError AdfRaw)
    (series : List (Option ℚ)) (label : String)
    (hadf : ∀ l, isConstantSeries l = true →
      adfuller l = .error .nonComputableSeries)
    (hconst : isConstantSeries (seriesDropna series) = true) :
    adf_test adfuller series label = .error .nonComputableSeries ∧
    ∀ row : AdfRow, adf_test adfuller series label ≠ .ok row := by
  have h : adf_test adfuller series label = .error .nonComputableSeries := by
    show (match adfuller (seriesDropna series) with
      | .error e => .error e
      | .ok r => _) = Except.error AdfError.nonComputableSeries
    rw [hadf _ hconst]
  refine ⟨h, ?_⟩
  intro row hrow
  rw [h] at hrow
  exact Except.noConfusion hrow

theorem adf_test_constant_witness :
    adf_test
      (fun l => if isConstantSeries l then .error .nonComputableSeries
                else .ok { stat := 0, pvalue := 0, crit1 := 0, crit5 := 0, crit10 := 0 })
      (List.replicate 100 (some 5)) "Bitcoin"
      = .error .nonComputableSeries :=
  (adf_test_constant _ (List.replicate 100 (some 5)) "Bitcoin"
    (fun l hl => by simp [hl]) (by decide)).1

/-- Interface of the external statsmodels `grangercausalitytests`,
modelled from the spec: given the two-column data slice and `maxlag`, it
either returns the ssr F-test p-values for lags 1..maxlag (entry
`lag` at position `lag - 1`) or raises, carrying the exception text. -/
abbrev GrangerTests :=
  List (List ℚ) → Nat → Except String (List ℚ)

/-- The two-column slice `returns[[effect, cause]]` for cause = column
`i` and effect = column `j` of the return table.  The `.dropna()` of the
source is the identity here: return-table cells are never missing in the
model. -/
def grangerData (returns : DF) (i j : Nat) : List (List ℚ) :=
  returns.rows.map (fun r => [r.getD j 0, r.getD i 0])

/-- `min(result[lag][0]["ssr_ftest"][1] for lag in range(1, max_lag + 1))`:
the minimum p-value across the tested lags.  `none` models the
exceptions Python raises inside the `try` block: `min()` on an empty
generator (`max_lag = 0`) or a missing lag key (fewer than `max_lag`
p-values returned). -/
def minPLags (ps : List ℚ) (max_lag : Nat) : Option ℚ :=
  if max_lag = 0 ∨ ps.length < max_lag then none
  else (ps.take max_lag).min?

/-- Whether the loop body of `granger_matrix` for the (cause = column i,
effect = column j) pair ends in the `except` branch. -/
def grangerFails (gct : GrangerTests) (returns : DF) (max_lag i j : Nat) : Bool :=
  match gct (grangerData returns i j) max_lag with
  | .error _ => true
  | .ok ps => (minPLags ps max_lag).isNone

/-- The cells `matrix.loc[cause, effect]` and `p_matrix.loc[cause, effect]`
computed by the loop body of `granger_matrix` for an off-diagonal pair:
the p-value cell holds the minimum p-value rounded to 4 decimals, the
boolean cell compares the unrounded minimum against the significance
level; on failure the initial values (False, NaN) are left in place. -/
def grangerCell (gct : GrangerTests) (returns : DF) (max_lag : Nat)
    (significance : ℚ) (i j : Nat) : Bool × Option ℚ :=
  match gct (grangerData returns i j) max_lag with
  | .error _ => (false, none)
  | .ok ps =>
    match minPLags ps max_lag with
    | none => (false, none)
    | some m => (decide (m < significance), some (pyround4 m))

/-- `granger_matrix` from `src/granger_causality.py`: the boolean
causality matrix (initialized all-False), the p-value matrix (initialized
all-NaN), and — modelling the `print` of the `except` branch — the
(cause, effect) name pairs whose test failed, in loop order.  Diagonal
pairs are skipped (`continue`), keeping the initial cell values. -/
def granger_matrix (gct : GrangerTests) (returns : DF) (max_lag : Nat)
    (significance : ℚ) :
    List (List Bool) × List (List (Option ℚ)) × List (String × String) :=
  let n := returns.cols.length
  ((List.range n).map (fun i => (List.range n).map (fun j =>
      if i = j then false else (grangerCell gct returns max_lag significance i j).1)),
   (List.range n).map (fun i => (List.range n).map (fun j =>
      if i = j then none else (grangerCell gct returns max_lag significance i j).2)),
   (List.range n).flatMap (fun i => (List.range n).filterMap (fun j =>
      if i ≠ j ∧ grangerFails gct returns max_lag i j = true
      then some (returns.cols.getD i "", returns.cols.getD j "") else none)))

theorem range_map_getD {α : Type} (n : Nat) (f : Nat → α) (d : α) (i : Nat) (hi : i < n) :
    ((List.range n).map f).getD i d = f i := by
  rw [List.getD_eq_getElem?_getD, List.getElem?_map, List.getElem?_range hi]
  rfl

theorem granger_matrix_bool_getD (gct : GrangerTests) (returns : DF) (max_lag : Nat)
    (significance : ℚ) (i j : Nat)
    (hi : i < returns.cols.length) (hj : j < returns.cols.length) :
    (((granger_matrix gct returns max_lag significance).1).getD i []).getD j false
      = if i = j then false else (grangerCell gct returns max_lag significance i j).1 := by
  have h1 : (granger_matrix gct returns max_lag significance).1
      = (List.range returns.cols.length).map (fun i =>
          (List.range returns.cols.length).map (fun j =>
            if i = j then false
            else (grangerCell gct returns max_lag significance i j).1)) := rfl
  rw [h1, range_map_getD _ _ _ i hi, range_map_getD _ _ _ j hj]

theorem granger_matrix_pval_getD (gct : GrangerTests) (returns : DF) (max_lag : Nat)
    (significance : ℚ) (i j : Nat)
    (hi : i < returns.cols.length) (hj : j < returns.cols.length) :
    (((granger_matrix gct returns max_lag significance).2.1).getD i []).getD j none
      = if i = j then none else (grangerCell gct returns max_lag significance i j).2 := by
  have h1 : (granger_matrix gct returns max_lag significance).2.1
      = (List.range returns.cols.length).map (fun i =>
          (List.range returns.cols.length).map (fun j =>
            if i = j then none
            else (grangerCell gct returns max_lag significance i j).2)) := rfl
  rw [h1, range_map_getD _ _ _ i hi, range_map_getD _ _ _ j hj]

/-- A two-column return table used by concrete Granger scenarios. -/
def returnsAB : DF :=
  { cols := ["A", "B"], idx := [0, 1, 2], rows := [[1, 2], [3, 4], [5, 6]] }

/-- A Granger backend that always succeeds with the single p-value 1/3. -/
def gctThird : GrangerTests := fun _ _ => .ok [1 / 3]

/-- A Granger backend that always raises. -/
def gctRaise : GrangerTests := fun _ _ => .error "insufficient data"

theorem grangerCell_ok (gct : GrangerTests) (returns : DF) (max_lag : Nat)
    (significance : ℚ) (i j : Nat) (ps : List ℚ) (m : ℚ)
    (hok : gct (grangerData returns i j) max_lag = .ok ps)
    (hmin : minPLags ps max_lag = some m) :
    grangerCell gct returns max_lag significance i j
      = (decide (m < significance), some (pyround4 m)) := by
  unfold grangerCell
  rw [hok]
  show (match minPLags ps max_lag with
    | none => (false, none)
    | some m => (decide (m < significance), some (pyround4 m))) = _
  rw [hmin]

theorem grangerCell_fail (gct : GrangerTests) (returns : DF) (max_lag : Nat)
    (significance : ℚ) (i j : Nat)
    (hfail : grangerFails gct returns max_lag i j = true) :
    grangerCell gct returns max_lag significance i j = (false, none) := by
  unfold grangerFails at hfail
  unfold grangerCell
  cases hgct : gct (grangerData returns i j) max_lag with
  | error e => rfl
  | ok ps =>
    rw [hgct] at hfail
    simp only at hfail
    rw [Option.isNone_iff_eq_none] at hfail
    show (match minPLags ps max_lag with
      | none => (false, none)
      | some m => (decide (m < significance), some (pyround4 m))) = _
    rw [hfail]

/-- C4 counterexample: with a backend whose minimum F-test p-value for the
pair (A, B) is 1/3, the stored p-value cell is `round(1/3, 4) = 0.3333`,
which differs from the minimum p-value 1/3: the cell holds the rounded
value, not the minimum itself. -/
theorem granger_p_rounding_cex :
    (((granger_matrix gctThird returnsAB 1 (1 / 20)).2.1).getD 0 []).getD 1 none
        = some (3333 / 10000) ∧
    (3333 / 10000 : ℚ) ≠ 1 / 3 := by
  refine ⟨?_, by norm_num⟩
  rw [granger_matrix_pval_getD gctThird returnsAB 1 (1 / 20) 0 1
    (by simp [returnsAB]) (by simp [returnsAB]), if_neg (by norm_num),
    grangerCell_ok gctThird returnsAB 1 (1 / 20) 0 1 [1 / 3] (1 / 3) rfl
      (by simp [minPLags])]
  norm_num [pyround4, round_half_even]

/-- C4 (amended): for every return table, backend, `max_lag ≥ 1` and
significance level, `granger_matrix` leaves both diagonal cells at their
initial values (p-value cell undefined, boolean cell False); for an
off-diagonal pair whose test succeeds with minimum p-value `m` over lags
1..max_lag, the p-value cell holds `m` rounded to 4 decimal places
(hence still within [0,1] when the per-lag p-values are), and the
boolean cell is true exactly when the unrounded `m` is below the
significance level. -/
theorem granger_matrix_spec (gct : GrangerTests) (returns : DF) (max_lag : Nat)
    (significance : ℚ) (i j : Nat)
    (hi : i < returns.cols.length) (hj : j < returns.cols.length) :
    ((((granger_matrix gct returns max_lag significance).1).getD i []).getD i false = false ∧
     (((granger_matrix gct returns max_lag significance).2.1).getD i []).getD i none = none) ∧
    (∀ ps m, i ≠ j → gct (grangerData returns i j) max_lag = .ok ps →
      minPLags ps max_lag = some m →
      (((granger_matrix gct returns max_lag significance).1).getD i []).getD j false
          = decide (m < significance) ∧
      (((granger_matrix gct returns max_lag significance).2.1).getD i []).getD j none
          = some (pyround4 m)) ∧
    (∀ ps m, gct (grangerData returns i j) max_lag = .ok ps →
      minPLags ps max_lag = some m → (∀ p ∈ ps, 0 ≤ p ∧ p ≤ 1) →
      0 ≤ pyround4 m ∧ pyround4 m ≤ 1) := by
  refine ⟨⟨?_, ?_⟩, ?_, ?_⟩
  · rw [granger_matrix_bool_getD gct returns max_lag significance i i hi hi, if_pos rfl]
  · rw [granger_matrix_pval_getD gct returns max_lag significance i i hi hi, if_pos rfl]
  · intro ps m hne hok hmin
    rw [granger_matrix_bool_getD gct returns max_lag significance i j hi hj, if_neg hne,
      granger_matrix_pval_getD gct returns max_lag significance i j hi hj, if_neg hne,
      grangerCell_ok gct returns max_lag significance i j ps m hok hmin]
    exact ⟨rfl, rfl⟩
  · intro ps m _hok hmin hrange
    have hmem : m ∈ ps := by
      have h1 : m ∈ ps.take max_lag := by
        unfold minPLags at hmin
        split at hmin
        · exact absurd hmin (by simp)
        · exact List.min?_mem (fun a b => min_choice a b) hmin
      exact List.mem_of_mem_take h1
    obtain ⟨hm0, hm1⟩ := hrange m hmem
    exact ⟨pyround4_nonneg m hm0, pyround4_le_one m hm1⟩

theorem granger_matrix_spec_witness :
    (((granger_matrix gctThird returnsAB 1 (1 / 20)).1).getD 0 []).getD 1 false = false ∧
    (((granger_matrix gctThird returnsAB 1 (1 / 20)).2.1).getD 0 []).getD 1 none
      = some (pyround4 (1 / 3)) := by
  have h := (granger_matrix_spec gctThird returnsAB 1 (1 / 20) 0 1
    (by simp [returnsAB]) (by simp [returnsAB])).2.1 [1 / 3] (1 / 3)
    (by norm_num) rfl (by simp [minPLags])
  refine ⟨?_, h.2⟩
  rw [h.1]
  simp only [decide_eq_false_iff_not]
  norm_num

/-- C5 counterexample: when the test for the pair (A, B) raises, the
boolean matrix cell for that pair is `False` — the initial value the
matrix was built with — not an undefined cell, contradicting the claim
that the failing pair's cell is left undefined (not false) in both
output matrices.  (The p-value cell is indeed left undefined.) -/
theorem granger_failed_pair_cex :
    (((granger_matrix gctRaise returnsAB 1 (1 / 20)).1).getD 0 []).getD 1 false = false ∧
    (((granger_matrix gctRaise returnsAB 1 (1 / 20)).2.1).getD 0 []).getD 1 none = none := by
  constructor
  · rw [granger_matrix_bool_getD gctRaise returnsAB 1 (1 / 20) 0 1
      (by simp [returnsAB]) (by simp [returnsAB]), if_neg (by norm_num)]
    rfl
  · rw [granger_matrix_pval_getD gctRaise returnsAB 1 (1 / 20) 0 1
      (by simp [returnsAB]) (by simp [returnsAB]), if_neg (by norm_num)]
    rfl

/-- C5 (amended): when the test for an off-diagonal pair cannot be
computed, that pair's p-value cell is left undefined, its boolean cell
is left at the initial value `False` (not undefined — the boolean matrix
has no undefined state), a diagnostic naming the (cause, effect) pair is
surfaced, and every other pair whose test succeeds is still computed
normally (no abort of the whole matrix). -/
theorem granger_matrix_failure (gct : GrangerTests) (returns : DF) (max_lag : Nat)
    (significance : ℚ) (i j : Nat)
    (hi : i < returns.cols.length) (hj : j < returns.cols.length)
    (hne : i ≠ j) (hfail : grangerFails gct returns max_lag i j = true) :
    (((granger_matrix gct returns max_lag significance).2.1).getD i []).getD j none = none ∧
    (((granger_matrix gct returns max_lag significance).1).getD i []).getD j false = false ∧
    (returns.cols.getD i "", returns.cols.getD j "")
        ∈ (granger_matrix gct returns max_lag significance).2.2 ∧
    (∀ i' j' ps m, i' < returns.cols.length → j' < returns.cols.length → i' ≠ j' →
      gct (grangerData returns i' j') max_lag = .ok ps →
      minPLags ps max_lag = some m →
      (((granger_matrix gct returns max_lag significance).1).getD i' []).getD j' false
          = decide (m < significance) ∧
      (((granger_matrix gct returns max_lag significance).2.1).getD i' []).getD j' none
          = some (pyround4 m)) := by
  refine ⟨?_, ?_, ?_, ?_⟩
  · rw [granger_matrix_pval_getD gct returns max_lag significance i j hi hj, if_neg hne,
      grangerCell_fail gct returns max_lag significance i j hfail]
  · rw [granger_matrix_bool_getD gct returns max_lag significance i j hi hj, if_neg hne,
      grangerCell_fail gct returns max_lag significance i j hfail]
  · have hdiag : (granger_matrix gct returns max_lag significance).2.2
        = (List.range returns.cols.length).flatMap (fun i =>
            (List.range returns.cols.length).filterMap (fun j =>
              if i ≠ j ∧ grangerFails gct returns max_lag i j = true
              then some (returns.cols.getD i "", returns.cols.getD j "") else none)) := rfl
    rw [hdiag, List.mem_flatMap]
    refine ⟨i, List.mem_range.mpr hi, ?_⟩
    rw [List.mem_filterMap]
    exact ⟨j, List.mem_range.mpr hj, by rw [if_pos ⟨hne, hfail⟩]⟩
  · intro i' j' ps m hi' hj' hne' hok hmin
    rw [granger_matrix_bool_getD gct returns max_lag significance i' j' hi' hj', if_neg hne',
      granger_matrix_pval_getD gct returns max_lag significance i' j' hi' hj', if_neg hne',
      grangerCell_ok gct returns max_lag significance i' j' ps m hok hmin]
    exact ⟨rfl, rfl⟩

theorem granger_matrix_failure_witness :
    (((granger_matrix gctRaise returnsAB 2 (1 / 20)).2.1).getD 0 []).getD 1 none = none ∧
    ("A", "B") ∈ (granger_matrix gctRaise returnsAB 2 (1 / 20)).2.2 := by
  have h := granger_matrix_failure gctRaise returnsAB 2 (1 / 20) 0 1
    (by simp [returnsAB]) (by simp [returnsAB]) (by norm_num) rfl
  exact ⟨h.1, h.2.2.1⟩

/-- One record of the tidy summary DataFrame built by `granger_summary`:
Cause | Effect | Min_p_value | Significant.  The source stores the
significance flag as the strings "Yes"/"No"; since "Yes" > "No"
lexicographically, sorting that column descending is sorting the boolean
with true first, which is how the flag is modelled here. -/
structure SummaryRow where
  cause : String
  effect : String
  min_p_value : Option ℚ
  significant : Bool
deriving Repr, DecidableEq, Inhabited

/-- Ascending comparison on the Min_p_value column with NaN placed last —
pandas `sort_values(..., ascending=True)` semantics for a NaN-bearing
numeric column. -/
def pvalLE : Option ℚ → Option ℚ → Bool
  | some x, some y => decide (x ≤ y)
  | some _, none => true
  | none, some _ => false
  | none, none => true

/-- The lexicographic key of
`sort_values(["Significant", "Min_p_value"], ascending=[False, True])`:
Significant descending ("Yes" before "No"), then Min_p_value ascending
with NaN last. -/
def summaryLE (a b : SummaryRow) : Bool :=
  if a.significant = b.significant then pvalLE a.min_p_value b.min_p_value
  else a.significant

/-- The rows of the summary frame in construction order (cause outer
loop, effect inner loop, diagonal skipped), before sorting: the p-value
is read back from the p-value matrix (hence rounded), and the
Significant flag compares that rounded value with the significance level
(NaN compares false, giving "No"). -/
def granger_summary_rows (gct : GrangerTests) (returns : DF) (max_lag : Nat)
    (significance : ℚ) : List SummaryRow :=
  let pm := (granger_matrix gct returns max_lag significance).2.1
  let n := returns.cols.length
  (List.range n).flatMap (fun i => (List.range n).filterMap (fun j =>
    if i = j then none
    else some { cause := returns.cols.getD i ""
                effect := returns.cols.getD j ""
                min_p_value := (pm.getD i []).getD j none
                significant := match (pm.getD i []).getD j none with
                  | some q => decide (q < significance)
                  | none => false }))

/-- `granger_summary` from `src/granger_causality.py`: build the tidy
rows from the p-value matrix, then
`sort_values(["Significant", "Min_p_value"], ascending=[False, True])` —
pandas sorts on several keys with a stable lexicographic sort
(`np.lexsort`), modelled by a stable merge sort under `summaryLE`. -/
def granger_summary (gct : GrangerTests) (returns : DF) (max_lag : Nat)
    (significance : ℚ) : List SummaryRow :=
  (granger_summary_rows gct returns max_lag significance).mergeSort summaryLE

theorem pvalLE_total (x y : Option ℚ) : pvalLE x y = true ∨ pvalLE y x = true := by
  cases x <;> cases y <;> simp [pvalLE]
  exact le_total _ _

theorem pvalLE_trans (x y z : Option ℚ) (h1 : pvalLE x y = true) (h2 : pvalLE y z = true) :
    pvalLE x z = true := by
  cases x <;> cases y <;> cases z <;> simp_all [pvalLE]
  exact le_trans h1 h2

theorem pvalLE_refl (x : Option ℚ) : pvalLE x x = true := by
  cases x <;> simp [pvalLE]

theorem summaryLE_total (a b : SummaryRow) : (summaryLE a b || summaryLE b a) = true := by
  unfold summaryLE
  by_cases h : a.significant = b.significant
  · rw [if_pos h, if_pos h.symm]
    rcases pvalLE_total a.min_p_value b.min_p_value with h1 | h1 <;> simp [h1]
  · rw [if_neg h, if_neg (Ne.symm h)]
    cases ha : a.significant <;> cases hb : b.significant <;> simp_all

theorem summaryLE_trans (a b c : SummaryRow) (h1 : summaryLE a b = true)
    (h2 : summaryLE b c = true) : summaryLE a c = true := by
  unfold summaryLE at h1 h2 ⊢
  cases ha : a.significant <;> cases hb : b.significant <;> cases hc : c.significant <;>
    simp_all
  · exact pvalLE_trans _ _ _ h1 h2
  · exact pvalLE_trans _ _ _ h1 h2

theorem summaryLE_of_keys_eq (a b : SummaryRow) (hs : a.significant = b.significant)
    (hp : a.min_p_value = b.min_p_value) : summaryLE a b = true := by
  unfold summaryLE
  rw [if_pos hs, hp]
  exact pvalLE_refl _

/-- C6: the output of `granger_summary` is a permutation of the
construction-order records, sorted so that every significant record
precedes every non-significant one and, within a group of equal
significance flags, defined p-values appear in ascending order; and the
sort is stable: two records with equal keys (equal flag and equal
p-value) keep their original relative order. -/
theorem granger_summary_sorted (gct : GrangerTests) (returns : DF) (max_lag : Nat)
    (significance : ℚ) :
    (granger_summary gct returns max_lag significance).Perm
      (granger_summary_rows gct returns max_lag significance) ∧
    (∀ i j : Nat, i < j → j < (granger_summary gct returns max_lag significance).length →
      (((granger_summary gct returns max_lag significance).getD j default).significant = true →
        ((granger_summary gct returns max_lag significance).getD i default).significant = true) ∧
      (((granger_summary gct returns max_lag significance).getD i default).significant
          = ((granger_summary gct returns max_lag significance).getD j default).significant →
        ∀ x y : ℚ,
          ((granger_summary gct returns max_lag significance).getD i default).min_p_value
            = some x →
          ((granger_summary gct returns max_lag significance).getD j default).min_p_value
            = some y →
          x ≤ y)) ∧
    (∀ a b : SummaryRow, a.significant = b.significant → a.min_p_value = b.min_p_value →
      [a, b].Sublist (granger_summary_rows gct returns max_lag significance) →
      [a, b].Sublist (granger_summary gct returns max_lag significance)) := by
  refine ⟨List.mergeSort_perm _ _, ?_, ?_⟩
  · have hsorted : List.Pairwise (fun a b => summaryLE a b = true)
        (granger_summary gct returns max_lag significance) :=
      List.sorted_mergeSort summaryLE_trans summaryLE_total
        (granger_summary_rows gct returns max_lag significance)
    intro i j hij hj
    have hi : i < (granger_summary gct returns max_lag significance).length :=
      lt_trans hij hj
    have hle : summaryLE ((granger_summary gct returns max_lag significance).getD i default)
        ((granger_summary gct returns max_lag significance).getD j default) = true := by
      rw [List.getD_eq_getElem _ _ hi, List.getD_eq_getElem _ _ hj]
      exact List.pairwise_iff_getElem.mp hsorted i j hi hj hij
    constructor
    · intro hsj
      cases hsi : ((granger_summary gct returns max_lag significance).getD i
          default).significant with
      | true => rfl
      | false =>
        unfold summaryLE at hle
        rw [hsi, hsj, if_neg (by simp)] at hle
        exact hle
    · intro hs x y hx hy
      unfold summaryLE at hle
      rw [if_pos hs, hx, hy] at hle
      simpa [pvalLE] using hle
  · intro a b hs hp hsub
    exact List.pair_sublist_mergeSort summaryLE_trans summaryLE_total
      (summaryLE_of_keys_eq a b hs hp) hsub

theorem granger_summary_rows_raise :
    granger_summary_rows gctRaise returnsAB 1 (1 / 20)
      = [{ cause := "A", effect := "B", min_p_value := none, significant := false },
         { cause := "B", effect := "A", min_p_value := none, significant := false }] := by
  simp [granger_summary_rows, granger_matrix, returnsAB, grangerCell, gctRaise,
    List.range_succ]

theorem granger_summary_sorted_witness :
    (((granger_summary gctRaise returnsAB 1 (1 / 20)).getD 1 default).significant = true →
      ((granger_summary gctRaise returnsAB 1 (1 / 20)).getD 0 default).significant = true) ∧
    [{ cause := "A", effect := "B", min_p_value := none, significant := false },
     { cause := "B", effect := "A", min_p_value := none,
       significant := false }].Sublist (granger_summary gctRaise returnsAB 1 (1 / 20)) := by
  have h := granger_summary_sorted gctRaise returnsAB 1 (1 / 20)
  have hlen : (granger_summary gctRaise returnsAB 1 (1 / 20)).length = 2 := by
    show ((granger_summary_rows gctRaise returnsAB 1 (1 / 20)).mergeSort summaryLE).length = 2
    rw [List.length_mergeSort, granger_summary_rows_raise]
    rfl
  refine ⟨(h.2.1 0 1 (by norm_num) (by rw [hlen]; norm_num)).1, ?_⟩
  exact h.2.2 _ _ rfl rfl (by rw [granger_summary_rows_raise])

/-- Modelled from the spec: the fitted-ARIMA state, external statsmodels
object kept abstract — the last date seen during fitting
(`model.data.dates[-1]`), the analytic log-space point forecast `mean t`
for horizon step `t` (0-based), and the corresponding forecast standard
error `se t`. -/
structure FittedARIMA where
  lastDate : Int
  mean : Nat → ℚ
  se : Nat → ℚ

/-- Modelled from the spec: `get_forecast(steps).predicted_mean` — the
`steps` log-space point forecasts of the fitted model. -/
def predicted_mean (m : FittedARIMA) (steps : Nat) : List ℚ :=
  (List.range steps).map m.mean

/-- Modelled from the spec: `get_forecast(steps).conf_int(alpha)` — the
two-sided (1-alpha) log-space band `mean ± z(alpha)·se` built from the
model's analytic forecast-error variance; `zscore` is the abstract
normal quantile as a function of alpha. -/
def conf_int (zscore : ℚ → ℚ) (m : FittedARIMA) (steps : Nat) (alpha : ℚ) :
    List (ℚ × ℚ) :=
  (List.range steps).map (fun t =>
    (m.mean t - zscore alpha * m.se t, m.mean t + zscore alpha * m.se t))

/-- `pd.date_range(start, periods, freq="D")`: `periods` consecutive
calendar days from `start`. -/
def date_range (start : Int) (periods : Nat) : List Int :=
  (List.range periods).map (fun (t : Nat) => start + (t : Int))

/-- One row of a forecast result frame: Date index and the columns
Forecast, Lower_CI, Upper_CI (price-level units). -/
structure ForecastRow where
  date : Int
  forecast : ℚ
  lower_ci : ℚ
  upper_ci : ℚ
deriving Repr, DecidableEq, Inhabited

/-- Assemble the result DataFrame from its index and three columns
(row-aligned, as the source's `pd.DataFrame({...}, index=...)`). -/
def zipRows : List Int → List ℚ → List ℚ → List ℚ → List ForecastRow
  | d :: ds, f :: fs, l :: ls, u :: us => ⟨d, f, l, u⟩ :: zipRows ds fs ls us
  | _, _, _, _ => []

/-- `forecast_arima` from `src/arima_model.py`: h-step log-space forecast
with (1-alpha) confidence interval, exponentiated back to price levels
(mean and both bounds independently), indexed by consecutive days
starting the day after the last fit date.  `last_price` is accepted but,
as in the source (where it is for display only), never used. -/
def forecast_arima (expq : ℚ → ℚ) (zscore : ℚ → ℚ) (fitted_model : FittedARIMA)
    (last_price : ℚ) (steps : Nat) (alpha : ℚ) : List ForecastRow :=
  let mean_log := predicted_mean fitted_model steps
  let ci_log := conf_int zscore fitted_model steps alpha
  let forecast_price := mean_log.map expq
  let lower_price := ci_log.map (fun c => expq c.1)
  let upper_price := ci_log.map (fun c => expq c.2)
  let future_dates := date_range (fitted_model.lastDate + 1) steps
  zipRows future_dates forecast_price lower_price upper_price

theorem zipRows_of_maps {α : Type} (d : α → Int) (f l u : α → ℚ) (xs : List α) :
    zipRows (xs.map d) (xs.map f) (xs.map l) (xs.map u)
      = xs.map (fun x => ⟨d x, f x, l x, u x⟩) := by
  induction xs with
  | nil => rfl
  | cons x xs ih => simp [zipRows, ih]

theorem forecast_arima_eq_map (expq : ℚ → ℚ) (zscore : ℚ → ℚ) (m : FittedARIMA)
    (last_price : ℚ) (steps : Nat) (alpha : ℚ) :
    forecast_arima expq zscore m last_price steps alpha
      = (List.range steps).map (fun t =>
          { date := m.lastDate + 1 + t
            forecast := expq (m.mean t)
            lower_ci := expq (m.mean t - zscore alpha * m.se t)
            upper_ci := expq (m.mean t + zscore alpha * m.se t) }) := by
  simp only [forecast_arima, predicted_mean, conf_int, date_range, List.map_map]
  exact zipRows_of_maps (α := Nat) (fun t => m.lastDate + 1 + (t : Int)) (expq ∘ m.mean)
    ((fun c => expq c.1) ∘ fun t =>
      (m.mean t - zscore alpha * m.se t, m.mean t + zscore alpha * m.se t))
    ((fun c => expq c.2) ∘ fun t =>
      (m.mean t - zscore alpha * m.se t, m.mean t + zscore alpha * m.se t))
    (List.range steps)

/-- C7: for every fitted ARIMA model, horizon `steps ≥ 1` and level
alpha, `forecast_arima` returns exactly `steps` rows, indexed by
strictly increasing consecutive days starting exactly one day after the
last fit date, and — provided the float exponential is monotone, the
forecast standard errors are non-negative and the normal quantile of
alpha is non-negative — every row satisfies
Lower_CI ≤ Forecast ≤ Upper_CI in price-level units. -/
theorem forecast_arima_spec (expq : ℚ → ℚ) (zscore : ℚ → ℚ) (m : FittedARIMA)
    (last_price : ℚ) (steps : Nat) (alpha : ℚ)
    (_hsteps : 1 ≤ steps)
    (hexp : Monotone expq) (hse : ∀ t, 0 ≤ m.se t) (hz : 0 ≤ zscore alpha) :
    (forecast_arima expq zscore m last_price steps alpha).length = steps ∧
    (∀ t : Nat, t < steps →
      ((forecast_arima expq zscore m last_price steps alpha).getD t default).date
        = m.lastDate + 1 + t) ∧
    (∀ row ∈ forecast_arima expq zscore m last_price steps alpha,
      row.lower_ci ≤ row.forecast ∧ row.forecast ≤ row.upper_ci) := by
  rw [forecast_arima_eq_map]
  refine ⟨by simp, ?_, ?_⟩
  · intro t ht
    rw [range_map_getD steps _ default t ht]
  · intro row hrow
    rw [List.mem_map] at hrow
    obtain ⟨t, _ht, hrow⟩ := hrow
    subst hrow
    have hm : 0 ≤ zscore alpha * m.se t := mul_nonneg hz (hse t)
    exact ⟨hexp (by linarith), hexp (by linarith)⟩

theorem forecast_arima_spec_witness :
    (forecast_arima id (fun _ => 2) { lastDate := 10, mean := fun _ => 5, se := fun _ => 1 }
      100 3 (1 / 20)).length = 3 ∧
    ((forecast_arima id (fun _ => 2) { lastDate := 10, mean := fun _ => 5, se := fun _ => 1 }
      100 3 (1 / 20)).getD 0 default).date = 11 ∧
    (∀ row ∈ forecast_arima id (fun _ => 2)
        { lastDate := 10, mean := fun _ => 5, se := fun _ => 1 } 100 3 (1 / 20),
      row.lower_ci ≤ row.forecast ∧ row.forecast ≤ row.upper_ci) := by
  have h := forecast_arima_spec id (fun _ => 2)
    { lastDate := 10, mean := fun _ => 5, se := fun _ => 1 } 100 3 (1 / 20)
    (by norm_num) (fun a b hab => hab) (fun _ => by norm_num) (by norm_num)
  exact ⟨h.1, h.2.1 0 (by norm_num), h.2.2⟩

/-- C10: the output of `forecast_arima` does not depend on its
`last_price` argument — any two values give identical forecasts, bounds
and date index.  (In the source the parameter is documented as "for
display only" and is never read.) -/
theorem forecast_arima_last_price_independent (expq : ℚ → ℚ) (zscore : ℚ → ℚ)
    (m : FittedARIMA) (steps : Nat) (alpha : ℚ) (p1 p2 : ℚ) :
    forecast_arima expq zscore m p1 steps alpha
      = forecast_arima expq zscore m p2 steps alpha := rfl

/-- Modelled from the spec: the fitted-VAR state, external statsmodels
object kept abstract — the selected lag order `k_ar`, the multivariate
point-forecast routine `forecast (y_past) (steps)` returning a
steps × k array in return space, and the forecast-error covariance
tensor `forecast_cov (steps)` of shape steps × k × k. -/
structure FittedVAR where
  k_ar : Nat
  forecast : List (List ℚ) → Nat → List (List ℚ)
  forecast_cov : Nat → List (List (List ℚ))

/-- `returns.values[-lag:]` — the seed window of the last `lag` rows.
Python's `-0:` slice degenerates to the whole array. -/
def var_y_past (fitted_model : FittedVAR) (returns : DF) : List (List ℚ) :=
  if fitted_model.k_ar = 0 then returns.rows
  else returns.rows.drop (returns.rows.length - fitted_model.k_ar)

/-- `np.cumsum` with a running accumulator. -/
def cumsumFrom (s : ℚ) : List ℚ → List ℚ
  | [] => []
  | x :: xs => (s + x) :: cumsumFrom (s + x) xs

/-- `np.cumsum`. -/
def cumsum (l : List ℚ) : List ℚ :=
  cumsumFrom 0 l

/-- `np.array([fc_cov[t][btc_idx, btc_idx] for t in range(steps)])`: the
target's own forecast-error variance at each horizon step. -/
def step_var (fitted_model : FittedVAR) (btc_idx steps : Nat) : List ℚ :=
  (List.range steps).map (fun t =>
    (((fitted_model.forecast_cov steps).getD t []).getD btc_idx []).getD btc_idx 0)

/-- `cum_se = np.sqrt(np.cumsum(step_var))`: the cumulative standard
error used by `forecast_var` (independence-across-steps approximation).
`sqrtq` is the abstract float square root. -/
def cum_se (sqrtq : ℚ → ℚ) (fitted_model : FittedVAR) (btc_idx steps : Nat) : List ℚ :=
  (cumsum (step_var fitted_model btc_idx steps)).map sqrtq

/-- `prices[name].iloc[-1]`: last value of a named column. -/
def colLast (df : DF) (name : String) : ℚ :=
  ((df.rows.map (fun r => r.getD (df.cols.findIdx (· == name)) 0)).getLast?).getD 0

/-- `forecast_var` from `src/var_model.py`: point forecast of the return
system from the last `lag` rows, cumulative sum of the target's
forecasted returns added to the last observed log price, and a
confidence band `± z·cum_se` in log space with the hardcoded
`z = 1.959964` (the `alpha` parameter is accepted but never read), all
three series exponentiated independently, indexed by consecutive days
after the last return date. -/
def forecast_var (expq logq sqrtq : ℚ → ℚ) (fitted_model : FittedVAR)
    (returns : DF) (prices : DF) (steps : Nat) (alpha : ℚ) : List ForecastRow :=
  let y_past := var_y_past fitted_model returns
  let fc_array := fitted_model.forecast y_past steps
  let btc_idx := returns.cols.findIdx (· == "Bitcoin")
  let z : ℚ := 1959964 / 1000000
  let last_log_price := logq (colLast prices "Bitcoin")
  let cum_returns := cumsum (fc_array.map (fun r => r.getD btc_idx 0))
  let cse := cum_se sqrtq fitted_model btc_idx steps
  let log_fc := cum_returns.map (fun c => last_log_price + c)
  let log_lower := List.zipWith (fun f s => f - z * s) log_fc cse
  let log_upper := List.zipWith (fun f s => f + z * s) log_fc cse
  let future_dates := date_range (returns.idx.getLast?.getD 0 + 1) steps
  zipRows future_dates (log_fc.map expq) (log_lower.map expq) (log_upper.map expq)

theorem cumsumFrom_length (s : ℚ) (l : List ℚ) : (cumsumFrom s l).length = l.length := by
  induction l generalizing s with
  | nil => rfl
  | cons x xs ih => simp [cumsumFrom, ih]

theorem cumsum_length (l : List ℚ) : (cumsum l).length = l.length :=
  cumsumFrom_length 0 l

theorem cumsumFrom_getD (s : ℚ) (l : List ℚ) (t : Nat) (ht : t < l.length) :
    (cumsumFrom s l).getD t 0 = s + (l.take (t + 1)).sum := by
  induction l generalizing s t with
  | nil => simp at ht
  | cons x xs ih =>
    cases t with
    | zero => simp [cumsumFrom]
    | succ t =>
      have ht' : t < xs.length := by simpa using Nat.lt_of_succ_lt_succ ht
      show (cumsumFrom (s + x) xs).getD t 0 = _
      rw [ih (s + x) t ht']
      simp [List.take_succ_cons, add_assoc]

theorem cumsum_getD (l : List ℚ) (t : Nat) (ht : t < l.length) :
    (cumsum l).getD t 0 = (l.take (t + 1)).sum := by
  rw [cumsum, cumsumFrom_getD 0 l t ht, zero_add]

theorem zipRows_getD (ds : List Int) (fs ls us : List ℚ) (t : Nat)
    (h1 : t < ds.length) (h2 : t < fs.length) (h3 : t < ls.length) (h4 : t < us.length) :
    (zipRows ds fs ls us).getD t default
      = { date := ds.getD t 0, forecast := fs.getD t 0,
          lower_ci := ls.getD t 0, upper_ci := us.getD t 0 } := by
  induction ds generalizing fs ls us t with
  | nil => simp at h1
  | cons d ds ih =>
    cases fs with
    | nil => simp at h2
    | cons f fs =>
      cases ls with
      | nil => simp at h3
      | cons l ls =>
        cases us with
        | nil => simp at h4
        | cons u us =>
          cases t with
          | zero => rfl
          | succ t =>
            show (zipRows ds fs ls us).getD t default = _
            rw [ih fs ls us t (by simpa using Nat.lt_of_succ_lt_succ h1)
              (by simpa using Nat.lt_of_succ_lt_succ h2)
              (by simpa using Nat.lt_of_succ_lt_succ h3)
              (by simpa using Nat.lt_of_succ_lt_succ h4)]
            rfl

/-- A concrete one-column fitted VAR: lag 1, zero return forecasts, unit
own-variance at every step. -/
def fittedUnitVAR : FittedVAR :=
  { k_ar := 1
    forecast := fun _ steps => List.replicate steps [0]
    forecast_cov := fun steps => List.replicate steps [[1]] }

/-- A one-row, one-column return table. -/
def returnsBTC : DF :=
  { cols := ["Bitcoin"], idx := [0], rows := [[0]] }

/-- A one-row, one-column price table with last price 1. -/
def pricesBTC : DF :=
  { cols := ["Bitcoin"], idx := [0], rows := [[1]] }

/-- C8 counterexample: `forecast_var` gives the same output at
alpha = 0.01 as at alpha = 0.05, and at alpha = 0.01 the log-space
margin is still 1.959964 · cum_SE — `z` is hardcoded and not determined
by alpha, contradicting "equal to about 1.959964 only when
alpha = 0.05" (at alpha = 0.01 the claim's z would be ≈ 2.576). -/
theorem forecast_var_alpha_ignored_cex :
    forecast_var id id id fittedUnitVAR returnsBTC pricesBTC 1 (1 / 100)
      = forecast_var id id id fittedUnitVAR returnsBTC pricesBTC 1 (1 / 20) ∧
    forecast_var id id id fittedUnitVAR returnsBTC pricesBTC 1 (1 / 100)
      = [{ date := 1, forecast := 1,
           lower_ci := 1 - 1959964 / 1000000, upper_ci := 1 + 1959964 / 1000000 }] := by
  refine ⟨rfl, ?_⟩
  simp [forecast_var, var_y_past, fittedUnitVAR, returnsBTC, pricesBTC, cum_se, step_var,
    cumsum, cumsumFrom, colLast, date_range, zipRows, List.range_succ, List.findIdx_cons]

theorem getD_map {α β : Type} (f : α → β) (l : List α) (t : Nat) (d : α) (e : β)
    (h : t < l.length) : (l.map f).getD t e = f (l.getD t d) := by
  rw [List.getD_eq_getElem _ _ (by simpa using h), List.getD_eq_getElem _ _ h,
    List.getElem_map]

theorem getD_zipWith {α β γ : Type} (g : α → β → γ) (l1 : List α) (l2 : List β) (t : Nat)
    (d1 : α) (d2 : β) (e : γ) (h1 : t < l1.length) (h2 : t < l2.length) :
    (List.zipWith g l1 l2).getD t e = g (l1.getD t d1) (l2.getD t d2) := by
  have h : t < (List.zipWith g l1 l2).length := by
    rw [List.length_zipWith]
    exact lt_min h1 h2
  rw [List.getD_eq_getElem _ _ h, List.getD_eq_getElem _ _ h1, List.getD_eq_getElem _ _ h2,
    List.getElem_zipWith]

theorem step_var_length (fitted_model : FittedVAR) (btc_idx steps : Nat) :
    (step_var fitted_model btc_idx steps).length = steps := by
  simp [step_var]

/-- The cumulative standard error at horizon step `t` (0-based) is the
square root of the sum of the target's own per-step variances over
steps 1..t+1. -/
theorem cum_se_getD (sqrtq : ℚ → ℚ) (fitted_model : FittedVAR) (btc_idx steps t : Nat)
    (ht : t < steps) :
    (cum_se sqrtq fitted_model btc_idx steps).getD t 0
      = sqrtq (((step_var fitted_model btc_idx steps).take (t + 1)).sum) := by
  have hsv := step_var_length fitted_model btc_idx steps
  rw [cum_se, getD_map sqrtq _ t 0 0 (by rw [cumsum_length, hsv]; exact ht),
    cumsum_getD _ t (by rw [hsv]; exact ht)]

/-- C9: the cumulative standard error used by `forecast_var` is
non-decreasing in the horizon step, provided the float square root is
monotone and the per-step own variances taken from the forecast
covariance tensor are non-negative: it is the square root of a running
sum of non-negative terms. -/
theorem cum_se_monotone (sqrtq : ℚ → ℚ) (fitted_model : FittedVAR)
    (btc_idx steps t : Nat)
    (hmono : Monotone sqrtq)
    (hvar : ∀ s : Nat, s < steps →
      0 ≤ (step_var fitted_model btc_idx steps).getD s 0)
    (ht : t + 1 < steps) :
    (cum_se sqrtq fitted_model btc_idx steps).getD t 0
      ≤ (cum_se sqrtq fitted_model btc_idx steps).getD (t + 1) 0 := by
  rw [cum_se_getD sqrtq fitted_model btc_idx steps t (by omega),
    cum_se_getD sqrtq fitted_model btc_idx steps (t + 1) ht]
  apply hmono
  have hsv := step_var_length fitted_model btc_idx steps
  have hlt : t + 1 < (step_var fitted_model btc_idx steps).length := by
    rw [hsv]
    exact ht
  rw [List.sum_take_succ _ (t + 1) hlt]
  have h0 : 0 ≤ (step_var fitted_model btc_idx steps)[t + 1] := by
    have h := hvar (t + 1) ht
    rwa [List.getD_eq_getElem _ _ hlt] at h
  linarith

theorem cum_se_monotone_witness :
    (cum_se id fittedUnitVAR 0 2).getD 0 0 ≤ (cum_se id fittedUnitVAR 0 2).getD 1 0 :=
  cum_se_monotone id fittedUnitVAR 0 2 0 (fun a b hab => hab)
    (fun s hs => by
      interval_cases s <;> simp [step_var, fittedUnitVAR, List.range_succ])
    (by norm_num)

theorem zipRows_length (ds : List Int) (fs ls us : List ℚ) :
    (zipRows ds fs ls us).length
      = min (min ds.length fs.length) (min ls.length us.length) := by
  induction ds generalizing fs ls us with
  | nil => simp [zipRows]
  | cons d ds ih =>
    cases fs with
    | nil => simp [zipRows]
    | cons f fs =>
      cases ls with
      | nil => simp [zipRows]
      | cons l ls =>
        cases us with
        | nil => simp [zipRows]
        | cons u us =>
          show (zipRows ds fs ls us).length + 1 = _
          rw [ih fs ls us]
          simp only [List.length_cons]
          omega

theorem date_range_getD (start : Int) (periods t : Nat) (h : t < periods) :
    (date_range start periods).getD t 0 = start + t :=
  range_map_getD periods (fun n => start + (n : Int)) 0 t h

/-- C8 (amended): `forecast_var` ignores its alpha parameter entirely —
the output is identical for any two alpha values — and, whenever the
external point-forecast routine returns `steps` rows, the row at horizon
step `t` (0-based) is built in log space as
point = log(last price) + sum of the target's forecasted returns over
steps 1..t+1, with bounds point ∓ z·sqrt(sum of the target's own
forecast-error variances over steps 1..t+1) for the hardcoded
z = 1.959964, point and both bounds then exponentiated independently,
under a date index of consecutive days after the last return date. -/
theorem forecast_var_spec (expq logq sqrtq : ℚ → ℚ) (fitted_model : FittedVAR)
    (returns : DF) (prices : DF) (steps : Nat) (alpha : ℚ)
    (hfc : (fitted_model.forecast (var_y_past fitted_model returns) steps).length = steps) :
    (∀ alpha' : ℚ,
      forecast_var expq logq sqrtq fitted_model returns prices steps alpha
        = forecast_var expq logq sqrtq fitted_model returns prices steps alpha') ∧
    (forecast_var expq logq sqrtq fitted_model returns prices steps alpha).length = steps ∧
    (∀ t : Nat, t < steps →
      (forecast_var expq logq sqrtq fitted_model returns prices steps alpha).getD t default
        = { date := returns.idx.getLast?.getD 0 + 1 + t
            forecast := expq (logq (colLast prices "Bitcoin") +
              (((fitted_model.forecast (var_y_past fitted_model returns) steps).map
                (fun r => r.getD (returns.cols.findIdx (· == "Bitcoin")) 0)).take
                  (t + 1)).sum)
            lower_ci := expq (logq (colLast prices "Bitcoin") +
              (((fitted_model.forecast (var_y_past fitted_model returns) steps).map
                (fun r => r.getD (returns.cols.findIdx (· == "Bitcoin")) 0)).take
                  (t + 1)).sum
              - 1959964 / 1000000 * sqrtq (((step_var fitted_model
                  (returns.cols.findIdx (· == "Bitcoin")) steps).take (t + 1)).sum))
            upper_ci := expq (logq (colLast prices "Bitcoin") +
              (((fitted_model.forecast (var_y_past fitted_model returns) steps).map
                (fun r => r.getD (returns.cols.findIdx (· == "Bitcoin")) 0)).take
                  (t + 1)).sum
              + 1959964 / 1000000 * sqrtq (((step_var fitted_model
                  (returns.cols.findIdx (· == "Bitcoin")) steps).take (t + 1)).sum)) }) := by
  have hlen_fcret : ((fitted_model.forecast (var_y_past fitted_model returns) steps).map
      (fun r => r.getD (returns.cols.findIdx (· == "Bitcoin")) 0)).length = steps := by
    rw [List.length_map, hfc]
  have hlen_cum : (cumsum ((fitted_model.forecast (var_y_past fitted_model returns) steps).map
      (fun r => r.getD (returns.cols.findIdx (· == "Bitcoin")) 0))).length = steps := by
    rw [cumsum_length, hlen_fcret]
  have hlen_logfc : ((cumsum ((fitted_model.forecast (var_y_past fitted_model returns)
      steps).map (fun r => r.getD (returns.cols.findIdx (· == "Bitcoin")) 0))).map
      (fun c => logq (colLast prices "Bitcoin") + c)).length = steps := by
    rw [List.length_map, hlen_cum]
  have hlen_cse : (cum_se sqrtq fitted_model (returns.cols.findIdx (· == "Bitcoin"))
      steps).length = steps := by
    rw [cum_se, List.length_map, cumsum_length, step_var_length]
  refine ⟨fun alpha' => rfl, ?_, ?_⟩
  · show (zipRows _ _ _ _).length = steps
    rw [zipRows_length]
    simp only [List.length_map, List.length_zipWith, hlen_logfc, hlen_cse, date_range,
      List.length_range, hlen_cum]
    omega
  · intro t ht
    show (zipRows (date_range (returns.idx.getLast?.getD 0 + 1) steps) _ _ _).getD t default
      = _
    rw [zipRows_getD _ _ _ _ t
      (by simpa [date_range] using ht)
      (by rw [List.length_map, hlen_logfc]; exact ht)
      (by rw [List.length_map, List.length_zipWith, hlen_logfc, hlen_cse]; simpa using ht)
      (by rw [List.length_map, List.length_zipWith, hlen_logfc, hlen_cse]; simpa using ht)]
    rw [date_range_getD _ _ t ht]
    rw [getD_map expq _ t 0 0 (by rw [hlen_logfc]; exact ht)]
    rw [getD_map expq _ t 0 0
      (by rw [List.length_zipWith, hlen_logfc, hlen_cse]; simpa using ht)]
    rw [getD_map expq _ t 0 0
      (by rw [List.length_zipWith, hlen_logfc, hlen_cse]; simpa using ht)]
    rw [getD_zipWith _ _ _ t 0 0 0 (by rw [hlen_logfc]; exact ht)
      (by rw [hlen_cse]; exact ht)]
    rw [getD_zipWith _ _ _ t 0 0 0 (by rw [hlen_logfc]; exact ht)
      (by rw [hlen_cse]; exact ht)]
    rw [getD_map (fun c => logq (colLast prices "Bitcoin") + c) _ t 0 0
      (by rw [hlen_cum]; exact ht)]
    rw [cumsum_getD _ t (by rw [hlen_fcret]; exact ht)]
    rw [cum_se_getD sqrtq fitted_model _ steps t ht]

theorem forecast_var_spec_witness :
    forecast_var id id id fittedUnitVAR returnsBTC pricesBTC 1 (1 / 100)
      = forecast_var id id id fittedUnitVAR returnsBTC pricesBTC 1 (3 / 100) ∧
    (forecast_var id id id fittedUnitVAR returnsBTC pricesBTC 1 (1 / 100)).length = 1 := by
  have h := forecast_var_spec id id id fittedUnitVAR returnsBTC pricesBTC 1 (1 / 100)
    (by simp [fittedUnitVAR])
  exact ⟨h.1 (3 / 100), h.2.1⟩
